import Mathlib

/-!
# Verification of the menu-bot meal-planning and grocery-aggregation core

A shallow embedding of the core of the `menu-bot` repository
(`src/core/grocery_optimizer.py` and `src/core/meal_planner.py`) in Lean 4,
together with theorems settling the specification claims about it.

Embedding conventions:
* Python `float` quantities and scores are embedded as exact rationals (`ℚ`).
  All arithmetic the core performs on them (sums, products by 1.5/0.5/0.3,
  comparisons) is exact on the values the program handles.
* Python strings are Lean `String`s; the string operations the code uses
  (`lower`, `strip`, `replace`, `in`, `startswith`-style prefix tests) are
  re-implemented structurally below so that all proofs reduce in the kernel.
  The inputs handled by the program are ASCII, where `Char.toLower` agrees
  with Python `str.lower`.
* Python `dict`s that the code iterates over are embedded as insertion-ordered
  association lists, matching the iteration-order guarantee of Python dicts.
* Python dates (`datetime`) are embedded as integer day ordinals; adding
  `timedelta(days=i)` becomes integer addition.
* `random.uniform(0, total)` and `random.choice` are embedded as explicit
  parameters (a rational draw and a choice index), universally quantified in
  the theorems, so the proved properties hold for every random outcome.
* The Firestore repository is embedded as in-memory data (lists of records),
  matching the spec's "abstract repository" treatment; `get_recipes_by_ids`
  resolves each id to the first stored recipe carrying it, skipping misses,
  exactly as `firestore_client.get_recipes_by_ids` does.
-/

/- Mathlib seals the `Rat` arithmetic primitives behind `@[irreducible]`,
which blocks `decide` on concrete rational computations.  The embedding's
witnesses evaluate quantities exactly, so restore the definitions'
original reducibility (a purely elaborator-side setting; the kernel-checked
proofs are unaffected). -/
set_option allowUnsafeReducibility true
attribute [semireducible] Rat.add Rat.mul Rat.sub Rat.div Rat.neg Rat.inv

namespace MenuBot

/-! ## String primitives (Python string operations, structurally) -/

/-- Character-list prefix test (`needle` begins `hay`). -/
def listPrefix : List Char → List Char → Bool
  | [], _ => true
  | _ :: _, [] => false
  | a :: as, b :: bs => a == b && listPrefix as bs

/-- Substring containment on character lists: Python's `needle in hay`. -/
def listContains (pat : List Char) : List Char → Bool
  | [] => pat.isEmpty
  | c :: rest => listPrefix pat (c :: rest) || listContains pat rest

/-- Replace every occurrence of `pat` by `rep`, scanning left to right and
continuing after each replacement, as Python `str.replace` does.  The fuel
argument (instantiated with the string length) keeps the recursion
structural so the kernel can evaluate it. -/
def replaceAux (pat rep : List Char) : Nat → List Char → List Char
  | _, [] => []
  | 0, s => s
  | n + 1, c :: rest =>
    if listPrefix pat (c :: rest) then
      rep ++ replaceAux pat rep n ((c :: rest).drop pat.length)
    else
      c :: replaceAux pat rep n rest

/-- Python `hay.replace(pat, rep)` (for the nonempty patterns the code uses). -/
def strReplace (hay pat rep : String) : String :=
  ⟨replaceAux pat.data rep.data hay.data.length hay.data⟩

/-- Python `needle in hay`. -/
def strContains (hay needle : String) : Bool :=
  listContains needle.data hay.data

/-- Python `s.lower()` (ASCII). -/
def strLower (s : String) : String :=
  ⟨s.data.map Char.toLower⟩

/-- Python `s.strip()`. -/
def strTrim (s : String) : String :=
  ⟨((s.data.dropWhile Char.isWhitespace).reverse.dropWhile Char.isWhitespace).reverse⟩

/-- Lexicographic strict order on strings by code point, as Python compares
strings.  Used only inside sort comparators. -/
def listLt : List Char → List Char → Bool
  | [], [] => false
  | [], _ :: _ => true
  | _ :: _, [] => false
  | a :: as, b :: bs => if a < b then true else if b < a then false else listLt as bs

def strLt (a b : String) : Bool := listLt a.data b.data

/-! ## Data model (`firestore_client.py` dataclasses, core-relevant fields) -/

/-- `Ingredient` dataclass (fields the core reads). -/
structure Ingredient where
  name : String
  quantity : ℚ
  unit : String
  category : String := "general"
deriving DecidableEq, Repr

/-- `Recipe` dataclass (fields the core reads). -/
structure Recipe where
  id : String
  name : String
  ingredients : List Ingredient := []
  tags : List String := []
  seasonalIngredients : List String := []
  kidFriendlyScore : ℚ := 1/2
  healthScore : ℚ := 1/2
deriving DecidableEq, Repr

/-- `MealPlanEntry` dataclass; the ISO date string is embedded as a day
ordinal. -/
structure MealPlanEntry where
  date : Int
  dayOfWeek : String
  recipeId : String
  recipeName : String
deriving DecidableEq, Repr

/-- `MealPlan` dataclass (core-relevant fields). -/
structure MealPlan where
  id : Option String := none
  weekStart : Int
  meals : List MealPlanEntry
  status : String := "draft"
deriving DecidableEq, Repr

/-- `GroceryItem` dataclass. -/
structure GroceryItem where
  name : String
  quantity : ℚ
  unit : String
  store : String := "meijer"
  category : String := "general"
  recipeSources : List String := []
  checked : Bool := false
deriving DecidableEq, Repr

/-- `GroceryList` dataclass (core-relevant fields). -/
structure GroceryList where
  mealPlanId : Option String := none
  weekStart : Int
  items : List GroceryItem
  status : String := "draft"
deriving DecidableEq, Repr

/-- `Preferences` (fields the planner reads). -/
structure Preferences where
  mealRepeatBufferDays : Nat := 14
  preferredMealIds : List String := []
deriving DecidableEq, Repr

/-! ## Store/category configuration (`config/stores.yaml` shape)

The YAML configuration is a nested mapping read with `.get(..., default)`.
It is embedded as insertion-ordered association lists with optional fields,
mirroring exactly the keys `grocery_optimizer.py` reads. -/

/-- The `bulk_thresholds` table of a store entry (only Costco's is read). -/
structure BulkThresholds where
  meatLbs : Option ℚ := none
  cheeseLbs : Option ℚ := none
  pantryItems : Option ℚ := none
deriving DecidableEq, Repr

/-- One store entry of the `stores:` table. -/
structure StoreData where
  priorityCategories : List String := []
  bulkThresholds : BulkThresholds := {}
deriving DecidableEq, Repr

/-- One category entry of the `ingredient_categories:` table. -/
structure CategoryData where
  items : List String := []
  preferredStore : Option String := none
  bulkStore : Option String := none
deriving DecidableEq, Repr

/-- The loaded configuration: `self.stores` and `self.categories`, in
declaration order. -/
structure StoresConfig where
  stores : List (String × StoreData) := []
  categories : List (String × CategoryData) := []
deriving DecidableEq, Repr

/-- First value bound to `key` in an association list (`dict.get`). -/
def assocFind {α : Type} : List (String × α) → String → Option α
  | [], _ => none
  | (k, v) :: rest, key => if k = key then some v else assocFind rest key

/-! ## `GroceryOptimizer` (`src/core/grocery_optimizer.py`) -/

/-- The `modifiers` list of `_normalize_ingredient_name`
(grocery_optimizer.py lines 131-135). -/
def modifiers : List String :=
  ["fresh", "dried", "ground", "whole", "chopped", "diced",
   "minced", "sliced", "shredded", "grated", "crushed",
   "large", "medium", "small", "ripe", "raw", "cooked"]

/-- The `normalizations` table of `_normalize_ingredient_name`
(grocery_optimizer.py lines 140-152), in declaration order. -/
def normalizations : List (String × String) :=
  [("garlic cloves", "garlic"), ("cloves garlic", "garlic"),
   ("clove garlic", "garlic"), ("onions", "onion"), ("tomatoes", "tomato"),
   ("potatoes", "potato"), ("carrots", "carrot"), ("peppers", "pepper"),
   ("eggs", "egg"), ("lemons", "lemon"), ("limes", "lime")]

/-- `GroceryOptimizer._normalize_ingredient_name`: lowercase and strip, remove
every occurrence of each modifier followed by a space, then apply the
substring substitution table, then strip again. -/
def normalizeIngredientName (name : String) : String :=
  let name := strTrim (strLower name)
  let name := modifiers.foldl (fun n m => strReplace n (m ++ " ") "") name
  let name := normalizations.foldl
    (fun n p => if strContains n p.1 then strReplace n p.1 p.2 else n) name
  strTrim name

/-- The `unit_map` of `_normalize_unit` (grocery_optimizer.py lines 165-182). -/
def unitMap : List (String × String) :=
  [("tablespoon", "tbsp"), ("tablespoons", "tbsp"), ("tbsps", "tbsp"),
   ("teaspoon", "tsp"), ("teaspoons", "tsp"), ("tsps", "tsp"),
   ("cups", "cup"), ("ounce", "oz"), ("ounces", "oz"),
   ("pound", "lb"), ("pounds", "lb"), ("lbs", "lb"),
   ("clove", "cloves"), ("piece", "each"), ("pieces", "each"), ("", "each")]

/-- `GroceryOptimizer._normalize_unit`. -/
def normalizeUnit (unit : String) : String :=
  let unit := strTrim (strLower unit)
  (assocFind unitMap unit).getD unit

/-- Does a category keyword match the (lowercased) name, per
`_infer_category`'s `item.lower() in name_lower or name_lower in
item.lower()`? -/
def categoryKeywordHit (nameLower : String) (d : CategoryData) : Bool :=
  d.items.any fun item =>
    strContains nameLower (strLower item) || strContains (strLower item) nameLower

/-- `GroceryOptimizer._infer_category`: first category (in configuration
order) with a keyword hit, defaulting to `"pantry"`. -/
def inferCategory (categories : List (String × CategoryData)) (ingredientName : String) :
    String :=
  match categories.find? (fun p => categoryKeywordHit (strLower ingredientName) p.2) with
  | some p => p.1
  | none => "pantry"

/-- `GroceryOptimizer._assign_store` (grocery_optimizer.py lines 198-247).
Early `return`s become nested conditionals in source order. -/
def assignStore (config : StoresConfig) (_name : String) (category : String)
    (quantity : ℚ) : String :=
  let categoryData := (assocFind config.categories category).getD {}
  let preferred := categoryData.preferredStore
  let bulkStore := categoryData.bulkStore
  let costcoConfig := (assocFind config.stores "costco").getD {}
  let bulkThresholds := costcoConfig.bulkThresholds
  if category = "meat" ∧ bulkThresholds.meatLbs.getD 2 ≤ quantity then "costco"
  else if category = "cheese" ∧ bulkThresholds.cheeseLbs.getD 1 ≤ quantity then "costco"
  else if category = "pantry" ∧ bulkThresholds.pantryItems.getD 3 ≤ quantity then
    bulkStore.getD "costco"
  else
    match preferred with
    | some p => p
    | none =>
      match config.stores.find? (fun p => category ∈ p.2.priorityCategories) with
      | some p => p.1
      | none => "meijer"

/-- One value of the `_aggregate_ingredients` accumulator: the `[quantity,
recipe_sources, category]` triple held per `(name, unit)` key. -/
structure AggEntry where
  quantity : ℚ
  recipeSources : List String
  category : String
deriving DecidableEq, Repr

/-- Apply one ingredient occurrence to the accumulator: `aggregated[key][0] +=
quantity`, append the recipe name if new, overwrite the category (last writer
wins).  A missing key starts from the defaultdict's `[0, [], "general"]`.
The association list keeps Python's dict insertion order. -/
def aggUpdate (acc : List ((String × String) × AggEntry)) (key : String × String)
    (qty : ℚ) (recipeName : String) (category : String) :
    List ((String × String) × AggEntry) :=
  match acc with
  | [] => [(key, ⟨0 + qty, [recipeName], category⟩)]
  | (k, e) :: rest =>
    if k = key then
      (k, ⟨e.quantity + qty,
           if recipeName ∈ e.recipeSources then e.recipeSources
           else e.recipeSources ++ [recipeName],
           category⟩) :: rest
    else
      (k, e) :: aggUpdate rest key qty recipeName category

/-- The loop body of `_aggregate_ingredients` for one ingredient of the
recipe named `recipeName`: normalize the name and unit into the key, take
the ingredient's category (inferring it when `"general"`), and update the
accumulator. -/
def ingStep (config : StoresConfig) (recipeName : String)
    (acc : List ((String × String) × AggEntry)) (ing : Ingredient) :
    List ((String × String) × AggEntry) :=
  let name := normalizeIngredientName ing.name
  let unit := normalizeUnit ing.unit
  let category :=
    if ing.category = "general" then inferCategory config.categories name
    else ing.category
  aggUpdate acc (name, unit) ing.quantity recipeName category

/-- `GroceryOptimizer._aggregate_ingredients`: fold every ingredient of every
recipe (in order) into the keyed accumulator. -/
def aggregateIngredients (config : StoresConfig) (recipes : List Recipe) :
    List ((String × String) × AggEntry) :=
  recipes.foldl
    (fun acc recipe => recipe.ingredients.foldl (ingStep config recipe.name) acc)
    []

/-- `FirestoreClient.get_recipes_by_ids`: resolve each id in order to the
first stored recipe carrying it, skipping ids that resolve to nothing. -/
def getRecipesByIds (db : List Recipe) (recipeIds : List String) : List Recipe :=
  recipeIds.filterMap fun recipeId => db.find? fun r => r.id = recipeId

/-- The `store_order` list used for sorting in `generate_grocery_list`. -/
def storeOrder : List String := ["trader_joes", "costco", "buschs", "meijer"]

/-- `store_order.index(x.store) if x.store in store_order else 99`. -/
def storeRank (store : String) : Nat :=
  (storeOrder.findIdx? (· == store)).getD 99

/-- Stable insertion of `x` into `l` before the first element `y` with
`le x y`.  Folding it from the right gives a stable sort. -/
def insertLe {α : Type} (le : α → α → Bool) (x : α) : List α → List α
  | [] => [x]
  | y :: ys => if le x y then x :: y :: ys else y :: insertLe le x ys

/-- Stable sort by a boolean comparator.  Python's `list.sort` is a stable
sort; a stable sort's output is determined by the comparator alone, so this
insertion sort produces exactly the list `list.sort(key=...)` produces. -/
def stableSort {α : Type} (le : α → α → Bool) (l : List α) : List α :=
  l.foldr (insertLe le) []

/-- The sort key of `generate_grocery_list`: ascending on
`(store rank, category, name)` with Python's lexicographic string order. -/
def itemKeyLe (a b : GroceryItem) : Bool :=
  if storeRank a.store < storeRank b.store then true
  else if storeRank b.store < storeRank a.store then false
  else if strLt a.category b.category then true
  else if strLt b.category a.category then false
  else !strLt b.name a.name

/-- `GroceryOptimizer.generate_grocery_list` (grocery_optimizer.py lines
44-91): resolve the plan's recipes, aggregate, assign stores, sort, and wrap
with status `"pending_approval"`. -/
def generateGroceryList (config : StoresConfig) (db : List Recipe)
    (mealPlan : MealPlan) : GroceryList :=
  let recipeIds := mealPlan.meals.map (·.recipeId)
  let recipes := getRecipesByIds db recipeIds
  let aggregated := aggregateIngredients config recipes
  let items := aggregated.map fun p =>
    { name := p.1.1
      quantity := p.2.quantity
      unit := p.1.2
      store := assignStore config p.1.1 p.2.category p.2.quantity
      category := p.2.category
      recipeSources := p.2.recipeSources
      checked := false : GroceryItem }
  let items := stableSort itemKeyLe items
  { mealPlanId := mealPlan.id
    weekStart := mealPlan.weekStart
    items := items
    status := "pending_approval" }

/-- Round a rational to the nearest integer, ties to even: the rounding
`f"{x:.1f}"` applies to the (exactly embedded) quantity scaled by ten. -/
def roundHalfEven (x : ℚ) : Int :=
  let n := ⌊x⌋
  if x - n < 1/2 then n
  else if (1 : ℚ)/2 < x - n then n + 1
  else if n % 2 = 0 then n else n + 1

/-! ## `MealPlanner` (`src/core/meal_planner.py`) -/

/-- The slice of `SeasonalHelper.get_seasonal_context` the planner reads:
`seasonal_context.get("peak_produce_names", [])`. -/
structure SeasonalContext where
  peakProduceNames : List String := []
deriving DecidableEq, Repr

/-- The repository state the planner reads: the approved recipes
(`get_all_recipes(approved_only=True)`), the rating scores keyed by recipe
id (`weighted_score` entries of `get_recipe_scores()`), the recently used
recipe ids (`get_recently_used_recipes`), the preferences, and the seasonal
context by date. -/
structure PlannerDB where
  recipes : List Recipe
  scores : List (String × ℚ) := []
  recentlyUsed : List String := []
  prefs : Preferences := {}
  seasonalCtx : Int → SeasonalContext := fun _ => {}

/-- The per-recipe score block of `_rank_recipes` (meal_planner.py lines
141-170): rating base (default 3.0), kid bonus ×1.5, health bonus ×0.5,
seasonal bonus of 0.3 per peak-produce hit capped at 1.0, preferred bonus
1.0.  `peakProduce` is the pre-lowercased peak-produce name set. -/
def recipeTotalScore (scores : List (String × ℚ)) (peakProduce : List String)
    (prefs : Preferences) (recipe : Recipe) : ℚ :=
  let baseScore := (assocFind scores recipe.id).getD 3
  let kidBonus := recipe.kidFriendlyScore * (3/2)
  let healthBonus := recipe.healthScore * (1/2)
  let seasonalBonus := recipe.seasonalIngredients.foldl
    (fun b ing => if strLower ing ∈ peakProduce then b + 3/10 else b) 0
  let preferredBonus : ℚ := if recipe.id ∈ prefs.preferredMealIds then 1 else 0
  baseScore + kidBonus + healthBonus + min seasonalBonus 1 + preferredBonus

/-- `MealPlanner._rank_recipes` (meal_planner.py lines 119-176): drop
recently used recipes, score the rest, and stable-sort descending by score
(`ranked.sort(key=..., reverse=True)` keeps ties in encounter order). -/
def rankRecipes (recipes : List Recipe) (scores : List (String × ℚ))
    (recentlyUsed : List String) (ctx : SeasonalContext) (prefs : Preferences) :
    List (Recipe × ℚ) :=
  let peakProduce := ctx.peakProduceNames.map strLower
  let ranked := recipes.filterMap fun recipe =>
    if recipe.id ∈ recentlyUsed then none
    else some (recipe, recipeTotalScore scores peakProduce prefs recipe)
  stableSort (fun a b => b.2 ≤ a.2) ranked

/-- The Friday filter of `_select_recipe` (meal_planner.py line 208):
`"quick" in r.tags or "kid-friendly" in r.tags`. -/
def fridayTagged (p : Recipe × ℚ) : Bool :=
  decide ("quick" ∈ p.1.tags ∨ "kid-friendly" ∈ p.1.tags)

/-- The day-specific candidate pool of `_select_recipe` (meal_planner.py
lines 199-217), computed from the not-yet-used `available` list: weekends
take the top 10, Friday restricts to `"quick"`/`"kid-friendly"`-tagged
recipes with a +1.0 bonus when any exist and takes the top 5, other days
take the top 7. -/
def selectCandidates (available : List (Recipe × ℚ)) (dayName : String) :
    List (Recipe × ℚ) :=
  if dayName = "Saturday" ∨ dayName = "Sunday" then
    available.take (min 10 available.length)
  else if dayName = "Friday" then
    let quickRecipes := (available.filter fridayTagged).map fun p => (p.1, p.2 + 1)
    let available := if quickRecipes.isEmpty then available else quickRecipes
    available.take (min 5 available.length)
  else
    available.take (min 7 available.length)

/-- The weighted-draw loop of `_select_recipe` (meal_planner.py lines
228-233): walk the candidates accumulating scores and return the first one
whose cumulative score reaches the draw. -/
def drawLoop (u : ℚ) (cumulative : ℚ) : List (Recipe × ℚ) → Option Recipe
  | [] => none
  | (recipe, score) :: rest =>
    if u ≤ cumulative + score then some recipe
    else drawLoop u (cumulative + score) rest

/-- The weighted-random-selection block of `_select_recipe` (meal_planner.py
lines 219-235): a single candidate is returned deterministically; a pool of
total score zero falls back to the uniform choice; otherwise the weighted
draw, with the last candidate as the loop's fallback. -/
def weightedPick (candidates : List (Recipe × ℚ)) (u : ℚ) (choiceIdx : Nat) :
    Option Recipe :=
  match candidates with
  | [] => none
  | [(recipe, _)] => some recipe
  | _ =>
    if (candidates.map (·.2)).sum = 0 then
      (candidates.get? (choiceIdx % candidates.length)).map (·.1)
    else
      match drawLoop u 0 candidates with
      | some recipe => some recipe
      | none => candidates.getLast?.map (·.1)

/-- `MealPlanner._select_recipe` (meal_planner.py lines 178-235).  `u`
embeds the `random.uniform(0, total_score)` draw and `choiceIdx` the
`random.choice` pick (as an index into the candidate pool); the `date`
parameter is accepted and unused, as in the source. -/
def selectRecipe (ranked : List (Recipe × ℚ)) (usedThisWeek : List String)
    (dayName : String) (_date : Int) (u : ℚ) (choiceIdx : Nat) : Option Recipe :=
  let available := ranked.filter fun p => decide (p.1.id ∉ usedThisWeek)
  if available.isEmpty then none
  else weightedPick (selectCandidates available dayName) u choiceIdx

/-- The `day_names` list of `generate_weekly_plan` (meal_planner.py line 87). -/
def dayNames : List String :=
  ["Monday", "Tuesday", "Wednesday", "Thursday", "Friday", "Saturday", "Sunday"]

/-- One iteration of the day loop of `generate_weekly_plan` (meal_planner.py
lines 89-108), acting on the `(meals, used_this_week)` state. -/
def planStep (ranked : List (Recipe × ℚ)) (weekStart : Int)
    (u : Nat → ℚ) (choice : Nat → Nat)
    (acc : List MealPlanEntry × List String) (i : Nat) :
    List MealPlanEntry × List String :=
  let mealDate := weekStart + i
  let dayName := dayNames.getD (i % 7) ""
  match selectRecipe ranked acc.2 dayName mealDate (u i) (choice i) with
  | some recipe =>
      (acc.1 ++ [{ date := mealDate, dayOfWeek := dayName,
                   recipeId := recipe.id, recipeName := recipe.name }],
       acc.2 ++ [recipe.id])
  | none => acc

/-- The whole day loop of `generate_weekly_plan`: fold `planStep` over the
day indices `0, …, numDays-1` starting from empty `meals`/`used_this_week`. -/
def planFold (ranked : List (Recipe × ℚ)) (weekStart : Int) (u : Nat → ℚ)
    (choice : Nat → Nat) (numDays : Nat) : List MealPlanEntry × List String :=
  (List.range numDays).foldl (planStep ranked weekStart u choice) ([], [])

/-- `MealPlanner.generate_weekly_plan` (meal_planner.py lines 34-117) with
the week start supplied by the caller (the `week_start=None` default derives
next Monday from the wall clock, outside the shallow embedding).  Raising
`ValueError` is embedded as `Except.error` carrying the message. -/
def generateWeeklyPlan (db : PlannerDB) (weekStart : Int) (numDays : Nat)
    (u : Nat → ℚ) (choice : Nat → Nat) : Except String MealPlan :=
  if db.recipes.isEmpty then
    .error "No approved recipes available for meal planning"
  else
    let ranked := rankRecipes db.recipes db.scores db.recentlyUsed
      (db.seasonalCtx weekStart) db.prefs
    let st := planFold ranked weekStart u choice numDays
    .ok { id := none, weekStart := weekStart, meals := st.1, status := "pending_approval" }

/-- `MealPlanner.regenerate_meal` (meal_planner.py lines 237-308): exclusions
are the plan's recipe ids plus the recently used ids, with the target day's
current recipe discarded before re-ranking; the selection still receives the
full `used_ids`.  No matching day, or no recipe found, returns the plan
unchanged. -/
def regenerateMeal (db : PlannerDB) (mealPlan : MealPlan) (dayToReplace : String)
    (u : ℚ) (choiceIdx : Nat) : MealPlan :=
  let usedIds := mealPlan.meals.map (·.recipeId)
  let excluded := usedIds ++ db.recentlyUsed
  match mealPlan.meals.findIdx? (fun m => m.dayOfWeek == dayToReplace) with
  | none => mealPlan
  | some mealIndex =>
    match mealPlan.meals.get? mealIndex with
    | none => mealPlan
    | some meal =>
      let excluded := excluded.filter fun i => decide (i ≠ meal.recipeId)
      let ctx := db.seasonalCtx meal.date
      let ranked := rankRecipes db.recipes db.scores excluded ctx db.prefs
      match selectRecipe ranked usedIds dayToReplace meal.date u choiceIdx with
      | some newRecipe =>
          { mealPlan with
            meals := mealPlan.meals.set mealIndex
              { date := meal.date, dayOfWeek := dayToReplace,
                recipeId := newRecipe.id, recipeName := newRecipe.name } }
      | none => mealPlan

/-- `GroceryOptimizer._format_quantity` (grocery_optimizer.py lines 338-351):
zero renders as the unit (or `"to taste"`); an integral quantity as
`str(int(quantity))`; otherwise the one-decimal rendering with a trailing
`".0"` stripped; the unit is appended unless empty or the literal `"each"`. -/
def formatQuantity (quantity : ℚ) (unit : String) : String :=
  if quantity = 0 then (if unit = "" then "to taste" else unit)
  else
    let qtyStr :=
      if quantity.den = 1 then toString quantity.num
      else
        let r := roundHalfEven (quantity * 10)
        if r % 10 = 0 then toString (r / 10)
        else toString (r / 10) ++ "." ++ toString (r % 10)
    if unit ≠ "" ∧ unit ≠ "each" then qtyStr ++ " " ++ unit else qtyStr

/-! ## Spec-side reformulations (for refinement-style claims) -/

/-- The configured meat bulk threshold: Costco's `bulk_thresholds.meat_lbs`,
defaulting to 2.0 lb. -/
def meatThreshold (config : StoresConfig) : ℚ :=
  (((assocFind config.stores "costco").getD {}).bulkThresholds.meatLbs).getD 2

/-- The configured cheese bulk threshold, defaulting to 1.0 lb. -/
def cheeseThreshold (config : StoresConfig) : ℚ :=
  (((assocFind config.stores "costco").getD {}).bulkThresholds.cheeseLbs).getD 1

/-- The configured pantry bulk threshold, defaulting to 3. -/
def pantryThreshold (config : StoresConfig) : ℚ :=
  (((assocFind config.stores "costco").getD {}).bulkThresholds.pantryItems).getD 3

/-- The category's configured preferred store, if set. -/
def categoryPreferredStore (config : StoresConfig) (category : String) : Option String :=
  ((assocFind config.categories category).getD {}).preferredStore

/-- The category's configured bulk store, if set. -/
def categoryBulkStore (config : StoresConfig) (category : String) : Option String :=
  ((assocFind config.categories category).getD {}).bulkStore

/-- The first store, in configuration-declared order, whose priority-category
list contains the category. -/
def firstPriorityStore (config : StoresConfig) (category : String) : Option String :=
  (config.stores.find? fun p => category ∈ p.2.priorityCategories).map (·.1)

/-- The store-routing rule as the spec words it: the three bulk-threshold
rules, then the category's preferred store, then the first store claiming
the category, then the `"meijer"` fallback — first match wins. -/
def assignStoreSpec (config : StoresConfig) (category : String) (quantity : ℚ) :
    String :=
  if category = "meat" ∧ meatThreshold config ≤ quantity then "costco"
  else if category = "cheese" ∧ cheeseThreshold config ≤ quantity then "costco"
  else if category = "pantry" ∧ pantryThreshold config ≤ quantity then
    (categoryBulkStore config category).getD "costco"
  else
    match categoryPreferredStore config category with
    | some p => p
    | none => (firstPriorityStore config category).getD "meijer"

/-- An ingredient's aggregation key: its normalized name and unit. -/
def ingKey (ing : Ingredient) : String × String :=
  (normalizeIngredientName ing.name, normalizeUnit ing.unit)

/-- The spec-side total for a key: the exact sum, over every ingredient of
every recipe in the list, of the quantities whose normalized (name, unit)
equals the key. -/
def ingredientTotal (key : String × String) (recipes : List Recipe) : ℚ :=
  (recipes.map fun r =>
    ((r.ingredients.filter fun ing => decide (ingKey ing = key)).map (·.quantity)).sum).sum

/-- The quantity the accumulator holds for a key (0 when absent). -/
def aggQuantity : List ((String × String) × AggEntry) → (String × String) → ℚ
  | [], _ => 0
  | (k, e) :: rest, key => if k = key then e.quantity else aggQuantity rest key

/-- The seasonal bonus as the code computes it, reformulated: 0.3 per entry
of the recipe's seasonal-ingredient list whose lowercased name occurs
(exactly) among the lowercased current peak-produce names. -/
def seasonalBonusSpec (ctx : SeasonalContext) (r : Recipe) : ℚ :=
  (3/10) * (r.seasonalIngredients.countP
    fun ing => decide (strLower ing ∈ ctx.peakProduceNames.map strLower))

/-- The ranker's composite score, reformulated: rating score (default 3.0) +
kid-friendly × 1.5 + health × 0.5 + the seasonal bonus capped at 1.0 + 1.0
for preferred recipe ids. -/
def recipeScoreSpec (scores : List (String × ℚ)) (ctx : SeasonalContext)
    (prefs : Preferences) (r : Recipe) : ℚ :=
  (assocFind scores r.id).getD 3 + r.kidFriendlyScore * (3/2) + r.healthScore * (1/2)
    + min (seasonalBonusSpec ctx r) 1
    + (if r.id ∈ prefs.preferredMealIds then 1 else 0)

/-! ## Theorems -/

/-- **C9.** The quantity formatter renders zero quantity as the unit string,
or `"to taste"` when the unit is also empty; renders an integral quantity
with no decimal part (as its integer numeral); renders a fractional quantity
to one decimal place with the trailing zero and point stripped; and appends
the unit exactly when it is nonempty and not the literal placeholder
`"each"`.  In particular 2.0 renders as `"2"`, 1.5 as `"1.5"`, 0 with empty
unit as `"to taste"`, and 3 with unit `"each"` as `"3"`. -/
theorem formatQuantity_rendering :
    ∀ (q : ℚ) (unit : String),
      (formatQuantity 0 unit = if unit = "" then "to taste" else unit) ∧
      (q ≠ 0 → q.den = 1 → formatQuantity q "" = toString q.num) ∧
      (q ≠ 0 → formatQuantity q "each" = formatQuantity q "") ∧
      (q ≠ 0 → unit ≠ "" → unit ≠ "each" →
        formatQuantity q unit = formatQuantity q "" ++ " " ++ unit) ∧
      (formatQuantity 2 "" = "2" ∧ formatQuantity (3/2) "" = "1.5" ∧
       formatQuantity 0 "" = "to taste" ∧ formatQuantity 3 "each" = "3" ∧
       formatQuantity (21/10) "" = "2.1" ∧ formatQuantity (51/25) "" = "2") := by
  intro q unit
  refine ⟨?_, ?_, ?_, ?_, by decide, by decide, by decide, by decide, by decide, by decide⟩
  · simp [formatQuantity]
  · intro hq hden
    simp [formatQuantity, hq, hden]
  · intro hq
    simp [formatQuantity, hq]
  · intro hq hu he
    simp [formatQuantity, hq, hu, he]

/-- Witness for `formatQuantity_rendering` at `q = 3/2`, `unit = "lb"`. -/
theorem formatQuantity_rendering_witness :
    formatQuantity (3/2) "lb" = formatQuantity (3/2) "" ++ " " ++ "lb" :=
  (formatQuantity_rendering (3/2) "lb").2.2.2.1 (by norm_num) (by decide) (by decide)

/-- **C2.** Store assignment follows the claimed precedence with first match
winning: meat at or above its threshold (default 2.0) and cheese at or above
its threshold (default 1.0) go to `"costco"` (the bulk store); pantry at or
above its threshold (default 3) goes to the category's configured bulk store
or `"costco"`; otherwise the category's configured preferred store if set;
otherwise the first store in configuration-declared order whose
priority-category list contains the category; otherwise `"meijer"`.  With the
empty configuration (default thresholds, no category configuration), meat of
quantity 1.5 routes to `"meijer"` and meat of quantity 3.0 to `"costco"`. -/
theorem assignStore_precedence :
    ∀ (config : StoresConfig) (name category : String) (quantity : ℚ),
      assignStore config name category quantity = assignStoreSpec config category quantity ∧
      assignStore {} name "meat" (3/2) = "meijer" ∧
      assignStore {} name "meat" 3 = "costco" := by
  intro config name category quantity
  refine ⟨?_, rfl, rfl⟩
  simp only [assignStore, assignStoreSpec, meatThreshold, cheeseThreshold,
    pantryThreshold, categoryPreferredStore, categoryBulkStore, firstPriorityStore]
  rcases h : ((assocFind config.categories category).getD {}).preferredStore with _ | p <;>
    rcases h2 : config.stores.find? (fun p => decide (category ∈ p.2.priorityCategories)) with _ | s <;>
      simp [h, h2]

/-- Updating the accumulator at `key` adds exactly `q` to that key's
quantity and leaves every other key's quantity unchanged. -/
theorem aggQuantity_aggUpdate (acc : List ((String × String) × AggEntry))
    (key k : String × String) (q : ℚ) (rn cat : String) :
    aggQuantity (aggUpdate acc key q rn cat) k
      = aggQuantity acc k + (if key = k then q else 0) := by
  induction acc with
  | nil =>
    simp only [aggUpdate, aggQuantity]
    by_cases h : key = k <;> simp [h]
  | cons hd rest ih =>
    obtain ⟨k0, e⟩ := hd
    simp only [aggUpdate]
    by_cases h1 : k0 = key
    · rw [if_pos h1]
      simp only [aggQuantity]
      by_cases h2 : k0 = k
      · rw [if_pos h2, if_pos h2, if_pos (h1 ▸ h2)]
      · have hk : ¬ key = k := fun he => h2 (h1.trans he)
        rw [if_neg h2, if_neg h2, if_neg hk, add_zero]
    · rw [if_neg h1]
      simp only [aggQuantity]
      by_cases h2 : k0 = k
      · have hk : ¬ key = k := fun he => h1 (h2.trans he.symm)
        rw [if_pos h2, if_pos h2, if_neg hk, add_zero]
      · rw [if_neg h2, if_neg h2, ih]

/-- Updating the accumulator leaves the key sequence unchanged except for
appending a genuinely new key. -/
theorem aggUpdate_keys (acc : List ((String × String) × AggEntry))
    (key : String × String) (q : ℚ) (rn cat : String) :
    (aggUpdate acc key q rn cat).map (·.1)
      = if key ∈ acc.map (·.1) then acc.map (·.1) else acc.map (·.1) ++ [key] := by
  induction acc with
  | nil => simp [aggUpdate]
  | cons hd rest ih =>
    obtain ⟨k0, e⟩ := hd
    simp only [aggUpdate, List.map_cons]
    by_cases h1 : k0 = key
    · subst h1
      simp [List.mem_cons]
    · rw [if_neg h1, List.map_cons, ih]
      have hne : ¬ key = k0 := fun he => h1 he.symm
      by_cases h2 : key ∈ rest.map (·.1) <;> simp [h2, hne, List.mem_cons]

/-- Updating the accumulator preserves key uniqueness. -/
theorem aggUpdate_nodup (acc : List ((String × String) × AggEntry))
    (key : String × String) (q : ℚ) (rn cat : String)
    (h : (acc.map (·.1)).Nodup) :
    ((aggUpdate acc key q rn cat).map (·.1)).Nodup := by
  rw [aggUpdate_keys]
  by_cases h2 : key ∈ acc.map (·.1)
  · simpa [h2]
  · simpa [h2, List.nodup_append] using h

/-- With unique keys, a member entry's stored quantity is the accumulator's
quantity at its key. -/
theorem aggQuantity_of_mem (l : List ((String × String) × AggEntry))
    (p : (String × String) × AggEntry)
    (hn : (l.map (·.1)).Nodup) (hp : p ∈ l) :
    aggQuantity l p.1 = p.2.quantity := by
  induction l with
  | nil => cases hp
  | cons hd rest ih =>
    rw [List.map_cons, List.nodup_cons] at hn
    rcases List.mem_cons.mp hp with he | hm
    · subst he
      obtain ⟨k0, e⟩ := p
      simp [aggQuantity]
    · obtain ⟨k0, e⟩ := hd
      have hne : ¬ k0 = p.1 := fun he => hn.1 (he ▸ List.mem_map_of_mem (·.1) hm)
      simpa [aggQuantity, hne] using ih hn.2 hm

/-- Folding one recipe's ingredients adds, for every key, exactly the sum of
that recipe's quantities normalizing to the key. -/
theorem aggQuantity_ingFold (config : StoresConfig) (rn : String)
    (l : List Ingredient) (acc : List ((String × String) × AggEntry))
    (k : String × String) :
    aggQuantity (l.foldl (ingStep config rn) acc) k
      = aggQuantity acc k
        + ((l.filter fun ing => decide (ingKey ing = k)).map (·.quantity)).sum := by
  induction l generalizing acc with
  | nil => simp
  | cons ing rest ih =>
    simp only [List.foldl_cons, ih, List.filter_cons]
    rw [show ingStep config rn acc ing
        = aggUpdate acc (ingKey ing) ing.quantity rn
            (if ing.category = "general"
             then inferCategory config.categories (normalizeIngredientName ing.name)
             else ing.category) from rfl]
    rw [aggQuantity_aggUpdate]
    by_cases h : ingKey ing = k
    · rw [if_pos h, if_pos (decide_eq_true h)]
      simp only [List.map_cons, List.sum_cons]
      ring
    · rw [if_neg h, if_neg (by simpa using h), add_zero]

/-- Folding one recipe's ingredients preserves key uniqueness. -/
theorem ingFold_nodup (config : StoresConfig) (rn : String)
    (l : List Ingredient) (acc : List ((String × String) × AggEntry))
    (h : (acc.map (·.1)).Nodup) :
    ((l.foldl (ingStep config rn) acc).map (·.1)).Nodup := by
  induction l generalizing acc with
  | nil => exact h
  | cons ing rest ih =>
    exact ih _ (aggUpdate_nodup _ _ _ _ _ h)

/-- Folding a recipe list from any accumulator adds, for every key, exactly
the spec-side total over those recipes. -/
theorem aggQuantity_aggregate_from (config : StoresConfig) (recipes : List Recipe)
    (acc : List ((String × String) × AggEntry)) (k : String × String) :
    aggQuantity
        (recipes.foldl (fun acc r => r.ingredients.foldl (ingStep config r.name) acc) acc) k
      = aggQuantity acc k + ingredientTotal k recipes := by
  induction recipes generalizing acc with
  | nil => simp [ingredientTotal]
  | cons r rest ih =>
    simp only [List.foldl_cons, ih, aggQuantity_ingFold, ingredientTotal,
      List.map_cons, List.sum_cons]
    ring

/-- The aggregated quantity at a key is the exact spec-side sum. -/
theorem aggQuantity_aggregate (config : StoresConfig) (recipes : List Recipe)
    (k : String × String) :
    aggQuantity (aggregateIngredients config recipes) k = ingredientTotal k recipes := by
  have h := aggQuantity_aggregate_from config recipes [] k
  simpa [aggregateIngredients, aggQuantity] using h

/-- The aggregation never produces two entries with the same key. -/
theorem aggregate_keys_nodup (config : StoresConfig) (recipes : List Recipe) :
    ((aggregateIngredients config recipes).map (·.1)).Nodup := by
  suffices h : ∀ acc : List ((String × String) × AggEntry), (acc.map (·.1)).Nodup →
      ((recipes.foldl (fun acc r => r.ingredients.foldl (ingStep config r.name) acc)
          acc).map (·.1)).Nodup by
    exact h [] (by simp)
  induction recipes with
  | nil => exact fun acc h => h
  | cons r rest ih =>
    intro acc h
    exact ih _ (ingFold_nodup _ _ _ _ h)

/-- The weighted-draw loop only ever returns a candidate from the pool. -/
theorem drawLoop_mem (u : ℚ) (cum : ℚ) (l : List (Recipe × ℚ)) (r : Recipe)
    (h : drawLoop u cum l = some r) : r ∈ l.map (·.1) := by
  induction l generalizing cum with
  | nil => cases h
  | cons p rest ih =>
    obtain ⟨rp, sp⟩ := p
    simp only [drawLoop] at h
    by_cases hle : u ≤ cum + sp
    · rw [if_pos hle, Option.some.injEq] at h
      simp [← h]
    · rw [if_neg hle] at h
      simp [ih _ h]

/-- Every candidate of the day-specific pool comes from the available list. -/
theorem selectCandidates_fst_subset (available : List (Recipe × ℚ)) (day : String) :
    ((selectCandidates available day).map (·.1)) ⊆ available.map (·.1) := by
  unfold selectCandidates
  by_cases h1 : day = "Saturday" ∨ day = "Sunday"
  · rw [if_pos h1]
    exact List.map_subset _ (List.take_subset _ _)
  · rw [if_neg h1]
    by_cases h2 : day = "Friday"
    · rw [if_pos h2]
      by_cases h3 : ((available.filter fridayTagged).map fun p => (p.1, p.2 + 1)).isEmpty
      · simp only [h3, if_true]
        exact List.map_subset _ (List.take_subset _ _)
      · simp only [h3, Bool.false_eq_true, if_false]
        intro r hr
        obtain ⟨p, hp, hpe⟩ := List.mem_map.mp hr
        have hp2 := List.take_subset _ _ hp
        obtain ⟨q, hq, hqe⟩ := List.mem_map.mp hp2
        have : q.1 = r := by rw [← hqe] at hpe; exact hpe
        exact this ▸ List.mem_map_of_mem (·.1) (List.mem_of_mem_filter hq)
    · rw [if_neg h2]
      exact List.map_subset _ (List.take_subset _ _)

/-- A nonempty available list yields a nonempty day-specific pool. -/
theorem selectCandidates_ne_nil (available : List (Recipe × ℚ)) (day : String)
    (h : available ≠ []) : selectCandidates available day ≠ [] := by
  have hlen : 0 < available.length := List.length_pos.mpr h
  rw [← List.length_pos]
  unfold selectCandidates
  by_cases h1 : day = "Saturday" ∨ day = "Sunday"
  · rw [if_pos h1, List.length_take]
    omega
  · rw [if_neg h1]
    by_cases h2 : day = "Friday"
    · rw [if_pos h2]
      by_cases h3 : ((available.filter fridayTagged).map fun p => (p.1, p.2 + 1)).isEmpty
      · simp only [h3, if_true, List.length_take]
        omega
      · simp only [h3, Bool.false_eq_true, if_false, List.length_take]
        have : 0 < ((available.filter fridayTagged).map fun p => (p.1, p.2 + 1)).length := by
          rw [List.length_pos]
          exact fun he => by simp [he] at h3
        omega
    · rw [if_neg h2, List.length_take]
      omega

/-- The weighted pick only ever returns a candidate from the pool. -/
theorem weightedPick_mem (cs : List (Recipe × ℚ)) (u : ℚ) (c : Nat) (r : Recipe)
    (h : weightedPick cs u c = some r) : r ∈ cs.map (·.1) := by
  match cs with
  | [] => cases h
  | [(r0, s0)] =>
    rw [show weightedPick [(r0, s0)] u c = some r0 from rfl, Option.some.injEq] at h
    simp [← h]
  | a :: b :: t2 =>
    rw [show weightedPick (a :: b :: t2) u c
        = (if ((a :: b :: t2).map (·.2)).sum = 0 then
            ((a :: b :: t2).get? (c % (a :: b :: t2).length)).map (·.1)
          else
            match drawLoop u 0 (a :: b :: t2) with
            | some recipe => some recipe
            | none => (a :: b :: t2).getLast?.map (·.1)) from rfl] at h
    by_cases ht : (((a :: b :: t2).map (·.2)).sum : ℚ) = 0
    · rw [if_pos ht] at h
      obtain ⟨p, hp, hpe⟩ := Option.map_eq_some'.mp h
      exact hpe ▸ List.mem_map_of_mem (·.1) (List.get?_mem hp)
    · rw [if_neg ht] at h
      revert h
      cases hd : drawLoop u 0 (a :: b :: t2) with
      | some r2 =>
        intro h
        rw [Option.some.injEq] at h
        exact h ▸ drawLoop_mem _ _ _ _ hd
      | none =>
        intro h
        obtain ⟨p, hp, hpe⟩ := Option.map_eq_some'.mp h
        exact hpe ▸ List.mem_map_of_mem (·.1) (List.mem_of_mem_getLast? hp)

/-- The weighted pick succeeds on a nonempty pool. -/
theorem weightedPick_isSome (cs : List (Recipe × ℚ)) (u : ℚ) (c : Nat)
    (h : cs ≠ []) : (weightedPick cs u c).isSome := by
  match cs with
  | [] => exact absurd rfl h
  | [(r0, s0)] => rfl
  | a :: b :: t2 =>
    rw [show weightedPick (a :: b :: t2) u c
        = (if ((a :: b :: t2).map (·.2)).sum = 0 then
            ((a :: b :: t2).get? (c % (a :: b :: t2).length)).map (·.1)
          else
            match drawLoop u 0 (a :: b :: t2) with
            | some recipe => some recipe
            | none => (a :: b :: t2).getLast?.map (·.1)) from rfl]
    by_cases ht : (((a :: b :: t2).map (·.2)).sum : ℚ) = 0
    · rw [if_pos ht]
      have hlt : c % (a :: b :: t2).length < (a :: b :: t2).length :=
        Nat.mod_lt _ (by simp)
      rw [List.get?_eq_get hlt]
      rfl
    · rw [if_neg ht]
      cases hd : drawLoop u 0 (a :: b :: t2) with
      | some r2 => rfl
      | none =>
        have hs : (a :: b :: t2).getLast?.isSome := by
          rw [List.getLast?_isSome]
          simp
        obtain ⟨p, hp⟩ := Option.isSome_iff_exists.mp hs
        rw [hp]
        rfl

/-- A selected recipe comes from the ranked list and was not yet used. -/
theorem selectRecipe_eq_some (ranked : List (Recipe × ℚ)) (used : List String)
    (day : String) (date : Int) (u : ℚ) (c : Nat) (r : Recipe)
    (h : selectRecipe ranked used day date u c = some r) :
    r ∈ ranked.map (·.1) ∧ r.id ∉ used := by
  unfold selectRecipe at h
  by_cases he : (ranked.filter fun p => decide (p.1.id ∉ used)).isEmpty
  · rw [if_pos he] at h
    cases h
  · rw [if_neg he] at h
    have hcand := weightedPick_mem _ u c r h
    have hav := selectCandidates_fst_subset _ day hcand
    obtain ⟨p, hp, hpe⟩ := List.mem_map.mp hav
    obtain ⟨hpr, hpd⟩ := List.mem_filter.mp hp
    refine ⟨hpe ▸ List.mem_map_of_mem (·.1) hpr, ?_⟩
    rw [← hpe]
    exact of_decide_eq_true hpd

/-- Selection succeeds whenever an unused ranked recipe remains. -/
theorem selectRecipe_isSome (ranked : List (Recipe × ℚ)) (used : List String)
    (day : String) (date : Int) (u : ℚ) (c : Nat)
    (h : (ranked.filter fun p => decide (p.1.id ∉ used)) ≠ []) :
    (selectRecipe ranked used day date u c).isSome := by
  unfold selectRecipe
  rw [if_neg (by simpa [List.isEmpty_iff] using h)]
  exact weightedPick_isSome _ u c (selectCandidates_ne_nil _ day h)

/-- Selection fails exactly when no unused ranked recipe remains. -/
theorem selectRecipe_eq_none (ranked : List (Recipe × ℚ)) (used : List String)
    (day : String) (date : Int) (u : ℚ) (c : Nat) :
    selectRecipe ranked used day date u c = none ↔
      (ranked.filter fun p => decide (p.1.id ∉ used)) = [] := by
  constructor
  · intro h
    by_contra hne
    have := selectRecipe_isSome ranked used day date u c hne
    rw [h] at this
    cases this
  · intro h
    unfold selectRecipe
    rw [if_pos (by rw [h]; rfl)]

/-- Stable insertion permutes to consing. -/
theorem insertLe_perm {α : Type} (le : α → α → Bool) (x : α) (l : List α) :
    (insertLe le x l).Perm (x :: l) := by
  induction l with
  | nil => simp [insertLe]
  | cons y ys ih =>
    by_cases h : le x y
    · simp [insertLe, h]
    · simp only [insertLe, h, Bool.false_eq_true, if_false]
      exact (ih.cons y).trans (List.Perm.swap x y ys)

/-- The stable sort is a permutation of its input. -/
theorem stableSort_perm {α : Type} (le : α → α → Bool) (l : List α) :
    (stableSort le l).Perm l := by
  induction l with
  | nil => simp [stableSort]
  | cons x xs ih =>
    exact (insertLe_perm le x (stableSort le xs)).trans (ih.cons x)

/-- The seasonal-bonus fold accumulates 0.3 per matching entry. -/
theorem foldl_seasonal (peak : List String) (l : List String) (init : ℚ) :
    l.foldl (fun b ing => if strLower ing ∈ peak then b + 3/10 else b) init
      = init + (3/10) * l.countP (fun ing => decide (strLower ing ∈ peak)) := by
  induction l generalizing init with
  | nil => simp
  | cons x xs ih =>
    simp only [List.foldl_cons, List.countP_cons]
    by_cases h : strLower x ∈ peak
    · rw [if_pos h, ih, decide_eq_true h]
      simp only [if_true]
      push_cast
      ring
    · rw [if_neg h, ih]
      simp [h]

/-- Filtering out at most `used.length` distinct ids keeps at least
`ranked.length - used.length` candidates. -/
theorem length_filter_notin (ranked : List (Recipe × ℚ)) (used : List String)
    (hn : (ranked.map fun p => p.1.id).Nodup) :
    ranked.length - used.length ≤ (ranked.filter fun p => decide (p.1.id ∉ used)).length := by
  induction ranked generalizing used with
  | nil => simp
  | cons p t ih =>
    rw [List.map_cons, List.nodup_cons] at hn
    rw [List.filter_cons]
    by_cases hpu : p.1.id ∈ used
    · rw [if_neg (by simpa using hpu)]
      have hc : (t.filter fun q => decide (q.1.id ∉ used))
          = t.filter fun q => decide (q.1.id ∉ used.erase p.1.id) := by
        apply List.filter_congr
        intro q hq
        have hne : q.1.id ≠ p.1.id := fun he => hn.1 (he ▸ List.mem_map_of_mem _ hq)
        simp [List.mem_erase_of_ne hne]
      have ih2 := ih (used.erase p.1.id) hn.2
      rw [← hc] at ih2
      have hl : (used.erase p.1.id).length = used.length - 1 :=
        List.length_erase_of_mem hpu
      have hpos : 0 < used.length :=
        List.length_pos.mpr fun he => by simp [he] at hpu
      rw [hl] at ih2
      simp only [List.length_cons]
      omega
    · rw [if_pos (by simpa using hpu)]
      have ih2 := ih used hn.2
      simp only [List.length_cons]
      omega

/-- The ranked list's recipe ids are, up to permutation, the ids of the
not-recently-used recipes. -/
theorem rankRecipes_fst_ids (recipes : List Recipe) (scores : List (String × ℚ))
    (recently : List String) (ctx : SeasonalContext) (prefs : Preferences) :
    ((rankRecipes recipes scores recently ctx prefs).map fun p => p.1.id).Perm
      ((recipes.filter fun r => decide (r.id ∉ recently)).map (·.id)) := by
  unfold rankRecipes
  refine ((stableSort_perm _ _).map _).trans ?_
  induction recipes with
  | nil => simp
  | cons r t ih =>
    rw [List.filterMap_cons, List.filter_cons]
    by_cases h : r.id ∈ recently
    · rw [if_pos h, if_neg (by simpa using h)]
      exact ih
    · rw [if_neg h, if_pos (by simpa using h), List.map_cons, List.map_cons]
      exact ih.cons r.id

/-- The ranked list is exactly as long as the eligible-recipe list. -/
theorem rankRecipes_length (recipes : List Recipe) (scores : List (String × ℚ))
    (recently : List String) (ctx : SeasonalContext) (prefs : Preferences) :
    (rankRecipes recipes scores recently ctx prefs).length
      = (recipes.filter fun r => decide (r.id ∉ recently)).length := by
  have h := (rankRecipes_fst_ids recipes scores recently ctx prefs).length_eq
  simpa using h

/-- With unique repository ids, the ranked list's ids are unique. -/
theorem rankRecipes_ids_nodup (recipes : List Recipe) (scores : List (String × ℚ))
    (recently : List String) (ctx : SeasonalContext) (prefs : Preferences)
    (h : (recipes.map (·.id)).Nodup) :
    ((rankRecipes recipes scores recently ctx prefs).map fun p => p.1.id).Nodup := by
  rw [(rankRecipes_fst_ids recipes scores recently ctx prefs).nodup_iff]
  exact List.Nodup.sublist
    (List.Sublist.map (·.id) (List.filter_sublist recipes)) h

/-- The generation loop's invariant: `used_this_week` is exactly the chosen
recipe ids; at most one entry per processed day; the i-th entry carries date
`weekStart + i` and the positional day label; ids never repeat; every chosen
id comes from the ranked list; and a shortfall means the candidate pool was
exhausted. -/
theorem planFold_invariant (ranked : List (Recipe × ℚ)) (weekStart : Int)
    (u : Nat → ℚ) (choice : Nat → Nat) (n : Nat) :
    (planFold ranked weekStart u choice n).2
        = (planFold ranked weekStart u choice n).1.map (·.recipeId) ∧
    (planFold ranked weekStart u choice n).1.length ≤ n ∧
    (∀ i e, (planFold ranked weekStart u choice n).1.get? i = some e →
      e.date = weekStart + i ∧ e.dayOfWeek = dayNames.getD (i % 7) "") ∧
    ((planFold ranked weekStart u choice n).1.map (·.recipeId)).Nodup ∧
    (∀ s ∈ (planFold ranked weekStart u choice n).2,
      s ∈ ranked.map fun p => p.1.id) ∧
    ((planFold ranked weekStart u choice n).1.length < n →
      ranked.filter (fun p =>
        decide (p.1.id ∉ (planFold ranked weekStart u choice n).2)) = []) := by
  induction n with
  | zero =>
    refine ⟨rfl, by simp [planFold], ?_, by simp [planFold], ?_, ?_⟩
    · intro i e he
      simp [planFold] at he
    · intro s hs
      simp [planFold] at hs
    · intro h
      simp [planFold] at h
  | succ n ih =>
    obtain ⟨ih1, ih2, ih3, ih4, ih5, ih6⟩ := ih
    have hstep : planFold ranked weekStart u choice (n + 1)
        = planStep ranked weekStart u choice (planFold ranked weekStart u choice n) n := by
      simp [planFold, List.range_succ]
    cases hsel : selectRecipe ranked (planFold ranked weekStart u choice n).2
        (dayNames.getD (n % 7) "") (weekStart + (n : Int)) (u n) (choice n) with
    | none =>
      have hred : planFold ranked weekStart u choice (n + 1)
          = planFold ranked weekStart u choice n := by
        rw [hstep]
        simp only [planStep, hsel]
      rw [hred]
      exact ⟨ih1, Nat.le_succ_of_le ih2, ih3, ih4, ih5,
        fun _ => (selectRecipe_eq_none _ _ _ _ _ _).mp hsel⟩
    | some r =>
      have hred : planFold ranked weekStart u choice (n + 1)
          = ((planFold ranked weekStart u choice n).1
               ++ [{ date := weekStart + (n : Int),
                     dayOfWeek := dayNames.getD (n % 7) "",
                     recipeId := r.id, recipeName := r.name }],
             (planFold ranked weekStart u choice n).2 ++ [r.id]) := by
        rw [hstep]
        simp only [planStep, hsel]
      rw [hred]
      have hlen : (planFold ranked weekStart u choice n).1.length = n := by
        by_contra hne
        have hlt := lt_of_le_of_ne ih2 hne
        have hnone := (selectRecipe_eq_none ranked
          (planFold ranked weekStart u choice n).2
          (dayNames.getD (n % 7) "") (weekStart + (n : Int)) (u n) (choice n)).mpr (ih6 hlt)
        rw [hsel] at hnone
        cases hnone
      obtain ⟨hmem, hnotused⟩ := selectRecipe_eq_some _ _ _ _ _ _ _ hsel
      have hid : r.id ∈ ranked.map fun p => p.1.id := by
        obtain ⟨p, hp, hpe⟩ := List.mem_map.mp hmem
        exact List.mem_map.mpr ⟨p, hp, by rw [hpe]⟩
      refine ⟨by simp [ih1], by simp [hlen], ?_, ?_, ?_, ?_⟩
      · intro i e he
        by_cases hio : i < (planFold ranked weekStart u choice n).1.length
        · rw [List.get?_append hio] at he
          exact ih3 i e he
        · have hieq : i = n := by
            have hub := (List.get?_eq_some.mp he).1
            simp only [List.length_append, List.length_cons, List.length_nil, hlen] at hub
            omega
          subst hieq
          rw [List.get?_append_right (by omega)] at he
          rw [hlen] at he
          simp only [Nat.sub_self, List.get?_cons_zero, Option.some.injEq] at he
          rw [← he]
          exact ⟨rfl, rfl⟩
      · rw [List.map_append]
        refine List.Nodup.append ih4 (by simp) ?_
        intro a ha hb
        simp only [List.map_cons, List.map_nil, List.mem_singleton] at hb
        rw [hb] at ha
        rw [← ih1] at ha
        exact hnotused ha
      · intro s hs
        rcases List.mem_append.mp hs with h | h
        · exact ih5 s h
        · rw [List.mem_singleton.mp h]
          exact hid
      · intro hlt
        exfalso
        rw [List.length_append, hlen] at hlt
        simp at hlt

/-- With at least `n` distinct eligible ranked recipes, every day of the
loop selects, so the plan has exactly `n` entries. -/
theorem planFold_complete (ranked : List (Recipe × ℚ)) (weekStart : Int)
    (u : Nat → ℚ) (choice : Nat → Nat) (n : Nat)
    (hn : (ranked.map fun p => p.1.id).Nodup)
    (hlen : n ≤ ranked.length) :
    (planFold ranked weekStart u choice n).1.length = n := by
  obtain ⟨ih1, ih2, _, _, _, ih6⟩ := planFold_invariant ranked weekStart u choice n
  by_contra hne
  have hlt := lt_of_le_of_ne ih2 hne
  have hemp := ih6 hlt
  have hcount := length_filter_notin ranked (planFold ranked weekStart u choice n).2 hn
  rw [hemp] at hcount
  have hul : (planFold ranked weekStart u choice n).2.length
      = (planFold ranked weekStart u choice n).1.length := by
    rw [ih1, List.length_map]
  simp only [List.length_nil] at hcount
  omega

/-- `take` to `min k length` is plain `take k`. -/
theorem take_min_length {α : Type} (a : Nat) (l : List α) :
    l.take (min a l.length) = l.take a := by
  rcases le_total a l.length with h | h
  · rw [min_eq_left h]
  · rw [min_eq_right h, List.take_length, List.take_of_length_le h]

/-- **C6.** On Friday, when at least one available candidate carries tag
`"quick"` or `"kid-friendly"`, the candidate pool is exactly the tagged
candidates, each with a flat +1.0 score bonus, capped at 5; when none does,
the pool is the top of the full available list capped at 5. -/
theorem selectCandidates_friday_policy :
    ∀ (available : List (Recipe × ℚ)),
      (available.filter fridayTagged ≠ [] →
        selectCandidates available "Friday"
          = ((available.filter fridayTagged).map fun p => (p.1, p.2 + 1)).take 5) ∧
      (available.filter fridayTagged = [] →
        selectCandidates available "Friday" = available.take 5) := by
  intro available
  constructor
  · intro h
    simp only [selectCandidates, take_min_length]
    simp [List.isEmpty_iff, h]
  · intro h
    simp only [selectCandidates, take_min_length]
    simp [List.isEmpty_iff, h]

/-- A nine-candidate Friday pool of which exactly two carry a qualifying tag
(the spec's Friday-policy scenario). -/
def fridayPoolExample : List (Recipe × ℚ) :=
  [({ id := "a", name := "a" }, 9), ({ id := "b", name := "b", tags := ["quick"] }, 8),
   ({ id := "c", name := "c" }, 7), ({ id := "d", name := "d" }, 6),
   ({ id := "e", name := "e", tags := ["kid-friendly"] }, 5),
   ({ id := "f", name := "f" }, 4), ({ id := "g", name := "g" }, 3),
   ({ id := "h", name := "h" }, 2), ({ id := "i", name := "i" }, 1)]

/-- Witness for `selectCandidates_friday_policy`: with 2 tagged candidates of
9, Friday's pool is exactly those 2 with the +1.0 bonus applied. -/
theorem selectCandidates_friday_policy_witness :
    selectCandidates fridayPoolExample "Friday"
      = ((fridayPoolExample.filter fridayTagged).map fun p => (p.1, p.2 + 1)).take 5 ∧
    (selectCandidates fridayPoolExample "Friday").length = 2 ∧
    fridayPoolExample.length = 9 :=
  ⟨(selectCandidates_friday_policy fridayPoolExample).1 (by decide), by decide, by decide⟩

/-- **C1.** For every meal plan and resolvable recipe mapping, every item of
the generated grocery list carries exactly the sum of the quantities of all
ingredients of all resolved recipes normalizing to the item's (name, unit)
key; no two items share a key; and the per-key totals are unchanged under
any permutation of the processed recipes. -/
theorem generateGroceryList_aggregates_exactly :
    ∀ (config : StoresConfig) (db : List Recipe) (mealPlan : MealPlan),
      (∀ item ∈ (generateGroceryList config db mealPlan).items,
        item.quantity = ingredientTotal (item.name, item.unit)
          (getRecipesByIds db (mealPlan.meals.map (·.recipeId)))) ∧
      ((generateGroceryList config db mealPlan).items.map fun i => (i.name, i.unit)).Nodup ∧
      (∀ recipes2 : List Recipe,
        (getRecipesByIds db (mealPlan.meals.map (·.recipeId))).Perm recipes2 →
        ∀ key, aggQuantity (aggregateIngredients config recipes2) key
          = aggQuantity (aggregateIngredients config
              (getRecipesByIds db (mealPlan.meals.map (·.recipeId)))) key) := by
  intro config db mealPlan
  refine ⟨?_, ?_, ?_⟩
  · intro item hitem
    simp only [generateGroceryList] at hitem
    have hmem := (stableSort_perm itemKeyLe _).subset hitem
    obtain ⟨p, hp, hpe⟩ := List.mem_map.mp hmem
    rw [← hpe]
    show p.2.quantity = ingredientTotal (p.1.1, p.1.2) _
    rw [Prod.mk.eta, ← aggQuantity_aggregate config _ p.1]
    exact (aggQuantity_of_mem _ p (aggregate_keys_nodup config _) hp).symm
  · simp only [generateGroceryList]
    refine (((stableSort_perm itemKeyLe _).map _).nodup_iff).mpr ?_
    rw [List.map_map]
    exact aggregate_keys_nodup config _
  · intro recipes2 hperm key
    rw [aggQuantity_aggregate, aggQuantity_aggregate]
    simp only [ingredientTotal]
    exact ((hperm.map _).sum_eq).symm

/-- The spec's aggregation scenario, recipe A: 1 lb of ground beef. -/
def recipeA : Recipe :=
  { id := "recipeA", name := "Spaghetti",
    ingredients := [{ name := "ground beef", quantity := 1, unit := "lb",
                      category := "meat" }] }

/-- The spec's aggregation scenario, recipe B: 1.5 lb of ground beef. -/
def recipeB : Recipe :=
  { id := "recipeB", name := "Tacos",
    ingredients := [{ name := "ground beef", quantity := 3/2, unit := "lb",
                      category := "meat" }] }

/-- A two-day meal plan referencing recipes A and B. -/
def planAB : MealPlan :=
  { weekStart := 0,
    meals := [{ date := 0, dayOfWeek := "Monday", recipeId := "recipeA",
                recipeName := "Spaghetti" },
              { date := 1, dayOfWeek := "Tuesday", recipeId := "recipeB",
                recipeName := "Tacos" }] }

/-- The single aggregated item the scenario produces (the name normalizer
strips the modifier `"ground "`). -/
def beefItem : GroceryItem :=
  { name := "beef", quantity := 5/2, unit := "lb", store := "costco",
    category := "meat", recipeSources := ["Spaghetti", "Tacos"], checked := false }

/-- Witness for `generateGroceryList_aggregates_exactly`: the aggregated
2.5 lb beef item of the two-recipe scenario, and order-independence of the
totals for the reversed recipe order. -/
theorem generateGroceryList_aggregates_exactly_witness :
    (beefItem.quantity = ingredientTotal (beefItem.name, beefItem.unit)
      (getRecipesByIds [recipeA, recipeB] (planAB.meals.map (·.recipeId)))) ∧
    (∀ key, aggQuantity (aggregateIngredients {} [recipeB, recipeA]) key
      = aggQuantity (aggregateIngredients {}
          (getRecipesByIds [recipeA, recipeB] (planAB.meals.map (·.recipeId)))) key) ∧
    beefItem.quantity = 5/2 :=
  ⟨(generateGroceryList_aggregates_exactly {} [recipeA, recipeB] planAB).1
      beefItem (by decide),
   (generateGroceryList_aggregates_exactly {} [recipeA, recipeB] planAB).2.2
      [recipeB, recipeA] (by decide),
   by decide⟩

/-- **C8.** Plan generation fails if and only if the approved-recipe set is
empty, and then with the human-readable message naming the unmet
precondition; with at least one approved recipe it returns a plan, and
candidate-pool exhaustion yields a shorter plan (never more than `numDays`
meals) rather than an error. -/
theorem generateWeeklyPlan_error_iff_no_recipes :
    ∀ (db : PlannerDB) (weekStart : Int) (numDays : Nat) (u : Nat → ℚ)
      (choice : Nat → Nat),
      (generateWeeklyPlan db weekStart numDays u choice
          = .error "No approved recipes available for meal planning"
        ↔ db.recipes = []) ∧
      (∀ e, generateWeeklyPlan db weekStart numDays u choice = .error e →
        e = "No approved recipes available for meal planning") ∧
      (db.recipes ≠ [] →
        ∃ plan, generateWeeklyPlan db weekStart numDays u choice = .ok plan ∧
          plan.meals.length ≤ numDays) := by
  intro db weekStart numDays u choice
  by_cases h : db.recipes = []
  · unfold generateWeeklyPlan
    rw [if_pos (by simp [h])]
    refine ⟨by simp [h], ?_, fun hne => absurd h hne⟩
    intro e he
    rw [Except.error.injEq] at he
    exact he.symm
  · unfold generateWeeklyPlan
    rw [if_neg (by simpa [List.isEmpty_iff] using h)]
    refine ⟨?_, ?_, ?_⟩
    · constructor
      · intro he
        cases he
      · intro he
        exact absurd he h
    · intro e he
      cases he
    · intro _
      exact ⟨_, rfl,
        (planFold_invariant (rankRecipes db.recipes db.scores db.recentlyUsed
          (db.seasonalCtx weekStart) db.prefs) weekStart u choice numDays).2.1⟩

/-- A one-recipe repository: planning three days exhausts the pool after the
first day. -/
def oneRecipeDB : PlannerDB := { recipes := [recipeA] }

/-- Witness for `generateWeeklyPlan_error_iff_no_recipes`: one approved
recipe, three requested days — no error, and a 1-meal (shorter) plan. -/
theorem generateWeeklyPlan_error_iff_no_recipes_witness :
    (∃ plan, generateWeeklyPlan oneRecipeDB 0 3 (fun _ => 0) (fun _ => 0) = .ok plan ∧
      plan.meals.length ≤ 3) ∧
    (generateWeeklyPlan oneRecipeDB 0 3 (fun _ => 0) (fun _ => 0)).toOption.map
      (fun p => p.meals.length) = some 1 :=
  ⟨(generateWeeklyPlan_error_iff_no_recipes oneRecipeDB 0 3 (fun _ => 0)
      (fun _ => 0)).2.2 (by decide), by decide⟩

/-- **C5.** A plan of length `N` generated from at least `N` eligible
approved recipes (distinct repository ids) has exactly `N` entries, no
repeated recipe id, every date in `[weekStart, weekStart + N - 1]` (the
`i`-th entry dated `weekStart + i`), and entries in calendar order. -/
theorem generateWeeklyPlan_no_repeat_and_dates :
    ∀ (db : PlannerDB) (weekStart : Int) (numDays : Nat) (u : Nat → ℚ)
      (choice : Nat → Nat) (plan : MealPlan),
      (db.recipes.map (·.id)).Nodup →
      numDays ≤ (db.recipes.filter fun r => decide (r.id ∉ db.recentlyUsed)).length →
      generateWeeklyPlan db weekStart numDays u choice = .ok plan →
      plan.meals.length = numDays ∧
      (plan.meals.map (·.recipeId)).Nodup ∧
      (∀ i e, plan.meals.get? i = some e →
        e.date = weekStart + i ∧ weekStart ≤ e.date ∧ e.date ≤ weekStart + numDays - 1) ∧
      (∀ i j ei ej, plan.meals.get? i = some ei → plan.meals.get? j = some ej →
        i < j → ei.date < ej.date) := by
  intro db weekStart numDays u choice plan hnodup helig hgen
  unfold generateWeeklyPlan at hgen
  by_cases hempty : db.recipes.isEmpty
  · rw [if_pos hempty] at hgen
    cases hgen
  · rw [if_neg hempty] at hgen
    rw [Except.ok.injEq] at hgen
    have hplan : plan.meals = (planFold (rankRecipes db.recipes db.scores
        db.recentlyUsed (db.seasonalCtx weekStart) db.prefs) weekStart u choice
        numDays).1 := by
      rw [← hgen]
    have hidn := rankRecipes_ids_nodup db.recipes db.scores db.recentlyUsed
      (db.seasonalCtx weekStart) db.prefs hnodup
    have hrl : numDays ≤ (rankRecipes db.recipes db.scores db.recentlyUsed
        (db.seasonalCtx weekStart) db.prefs).length := by
      rw [rankRecipes_length]
      exact helig
    have hcomp := planFold_complete (rankRecipes db.recipes db.scores db.recentlyUsed
      (db.seasonalCtx weekStart) db.prefs) weekStart u choice numDays hidn hrl
    have hinv := planFold_invariant (rankRecipes db.recipes db.scores db.recentlyUsed
      (db.seasonalCtx weekStart) db.prefs) weekStart u choice numDays
    refine ⟨by rw [hplan]; exact hcomp, by rw [hplan]; exact hinv.2.2.2.1, ?_, ?_⟩
    · intro i e he
      rw [hplan] at he
      have hi : i < numDays := by
        have hb := (List.get?_eq_some.mp he).1
        omega
      have hd := (hinv.2.2.1 i e he).1
      refine ⟨hd, ?_, ?_⟩ <;> omega
    · intro i j ei ej hei hej hij
      rw [hplan] at hei hej
      have hdi := (hinv.2.2.1 i ei hei).1
      have hdj := (hinv.2.2.1 j ej hej).1
      omega

/-- A two-recipe repository for concrete plan-generation runs. -/
def twoRecipeDB : PlannerDB := { recipes := [recipeA, recipeB] }

/-- The plan `generateWeeklyPlan twoRecipeDB 5 2 0 0` produces. -/
def planC5Expected : MealPlan :=
  { weekStart := 5, status := "pending_approval",
    meals := [{ date := 5, dayOfWeek := "Monday", recipeId := "recipeA",
                recipeName := "Spaghetti" },
              { date := 6, dayOfWeek := "Tuesday", recipeId := "recipeB",
                recipeName := "Tacos" }] }

/-- Witness for `generateWeeklyPlan_no_repeat_and_dates`: two eligible
recipes, two days. -/
theorem generateWeeklyPlan_no_repeat_and_dates_witness :
    planC5Expected.meals.length = 2 ∧
    (planC5Expected.meals.map (·.recipeId)).Nodup ∧
    (∀ i e, planC5Expected.meals.get? i = some e →
      e.date = 5 + i ∧ 5 ≤ e.date ∧ e.date ≤ 5 + 2 - 1) ∧
    (∀ i j ei ej, planC5Expected.meals.get? i = some ei →
      planC5Expected.meals.get? j = some ej → i < j → ei.date < ej.date) :=
  generateWeeklyPlan_no_repeat_and_dates twoRecipeDB 5 2 (fun _ => 0) (fun _ => 0)
    planC5Expected (by decide) (by decide) rfl

/-- **C10.** Day labels are positional: the entry generated for loop index
`i` is labeled with the `i % 7`-th element of the fixed
Monday-through-Sunday list and dated `weekStart + i`, for every `weekStart`
— whatever calendar weekday `weekStart` falls on. -/
theorem generateWeeklyPlan_positional_day_labels :
    ∀ (db : PlannerDB) (weekStart : Int) (numDays : Nat) (u : Nat → ℚ)
      (choice : Nat → Nat) (plan : MealPlan),
      generateWeeklyPlan db weekStart numDays u choice = .ok plan →
      ∀ i e, plan.meals.get? i = some e →
        e.dayOfWeek = dayNames.getD (i % 7) "" ∧ e.date = weekStart + i := by
  intro db weekStart numDays u choice plan hgen i e he
  unfold generateWeeklyPlan at hgen
  by_cases hempty : db.recipes.isEmpty
  · rw [if_pos hempty] at hgen
    cases hgen
  · rw [if_neg hempty] at hgen
    rw [Except.ok.injEq] at hgen
    have hplan : plan.meals = (planFold (rankRecipes db.recipes db.scores
        db.recentlyUsed (db.seasonalCtx weekStart) db.prefs) weekStart u choice
        numDays).1 := by
      rw [← hgen]
    rw [hplan] at he
    have hinv := planFold_invariant (rankRecipes db.recipes db.scores db.recentlyUsed
      (db.seasonalCtx weekStart) db.prefs) weekStart u choice numDays
    obtain ⟨h1, h2⟩ := hinv.2.2.1 i e he
    exact ⟨h2, h1⟩

/-- The calendar weekday of an embedded date, with day 0 a Monday. -/
def trueWeekdayName (d : Int) : String :=
  dayNames.getD (d % 7).toNat ""

/-- The plan `generateWeeklyPlan twoRecipeDB 2 1 0 0` produces: `weekStart`
2 is a Wednesday, yet the single entry is labeled `"Monday"`. -/
def planC10Expected : MealPlan :=
  { weekStart := 2, status := "pending_approval",
    meals := [{ date := 2, dayOfWeek := "Monday", recipeId := "recipeA",
                recipeName := "Spaghetti" }] }

/-- Witness for `generateWeeklyPlan_positional_day_labels`: with a Wednesday
`weekStart`, the first entry still gets the positional label `"Monday"`,
diverging from the calendar weekday of its date. -/
theorem generateWeeklyPlan_positional_day_labels_witness :
    (∀ e, planC10Expected.meals.get? 0 = some e →
      e.dayOfWeek = dayNames.getD (0 % 7) "" ∧ e.date = 2 + 0) ∧
    trueWeekdayName 2 = "Wednesday" ∧
    dayNames.getD (0 % 7) "" = "Monday" :=
  ⟨fun e he => generateWeeklyPlan_positional_day_labels twoRecipeDB 2 1
      (fun _ => 0) (fun _ => 0) planC10Expected rfl 0 e he,
   by decide, by decide⟩

/-- Regeneration scenario: the recipe currently occupying Monday. -/
def currentMondayRecipe : Recipe := { id := "r1", name := "Pasta Night" }

/-- Regeneration scenario: the only other approved recipe. -/
def otherRecipe : Recipe := { id := "r2", name := "Taco Night" }

/-- Repository for the regeneration scenario. -/
def regenDB : PlannerDB := { recipes := [currentMondayRecipe, otherRecipe] }

/-- A one-meal plan with `r1` on Monday. -/
def regenPlan : MealPlan :=
  { weekStart := 0,
    meals := [{ date := 0, dayOfWeek := "Monday", recipeId := "r1",
                recipeName := "Pasta Night" }] }

/-- The plan regeneration always produces: Monday replaced by `r2`. -/
def regenPlanR2 : MealPlan :=
  { weekStart := 0,
    meals := [{ date := 0, dayOfWeek := "Monday", recipeId := "r2",
                recipeName := "Taco Night" }] }

/-- **C4 (code bug).** The claim (and the comment at meal_planner.py line
273) says the recipe currently occupying the target day is re-admitted and
can be selected again for some random draw.  The code removes it only from
the exclusion set used for *ranking*, but still passes the full `used_ids`
(which contains it) to `_select_recipe`, whose availability filter discards
it — so it can never be re-selected.  Concretely: with plan `[Monday → r1]`
and approved recipes `{r1, r2}`, regeneration yields `r2` for every random
draw; and in general a selected recipe's id is never in the `used` set the
selector receives. -/
theorem regenerateMeal_never_reselects_current :
    (∀ (u : ℚ) (c : Nat), regenerateMeal regenDB regenPlan "Monday" u c = regenPlanR2) ∧
    (∀ (ranked : List (Recipe × ℚ)) (used : List String) (day : String)
       (date : Int) (u : ℚ) (c : Nat) (r : Recipe),
       selectRecipe ranked used day date u c = some r → r.id ∉ used) := by
  constructor
  · intro u c
    rfl
  · intro ranked used day date u c r h
    exact (selectRecipe_eq_some ranked used day date u c r h).2

/-- Witness for `regenerateMeal_never_reselects_current` at a concrete draw
and a concrete successful selection. -/
theorem regenerateMeal_never_reselects_current_witness :
    regenerateMeal regenDB regenPlan "Monday" (1/2) 3 = regenPlanR2 ∧
    otherRecipe.id ∉ ["r1"] :=
  ⟨regenerateMeal_never_reselects_current.1 (1/2) 3,
   regenerateMeal_never_reselects_current.2
     (rankRecipes regenDB.recipes [] [] {} {}) ["r1"] "Monday" 0 (1/2) 3
     otherRecipe rfl⟩

/-- A recipe whose seasonal-ingredient name `"tomatoes"` contains the peak
name `"tomato"` as a substring but is not equal to it. -/
def seasonalCounterRecipe : Recipe :=
  { id := "r1", name := "Tomato Soup", seasonalIngredients := ["tomatoes"],
    kidFriendlyScore := 0, healthScore := 0 }

/-- **C3 (counterexample).** The claim says the seasonal bonus accrues 0.3
per ingredient matching a peak-produce name by case-insensitive *substring*
match.  With peak produce `["tomato"]` and seasonal ingredient `"tomatoes"`
the substring match holds, so the claim predicts score `3 + min 0.3 1`; the
code compares for set membership (exact equality) and scores `3`. -/
theorem rankRecipes_substring_counterexample :
    rankRecipes [seasonalCounterRecipe] [] [] ⟨["tomato"]⟩ {}
      = [(seasonalCounterRecipe, 3)] ∧
    strContains "tomatoes" "tomato" = true ∧
    (3 : ℚ) ≠ 3 + min (3/10) 1 := by
  decide

/-- **C3 (amended).** For every recipe not excluded as recently used, the
ranked list contains it paired with the composite score: rating score
(default 3.0 when the id has no entry) + kid-friendly × 1.5 + health × 0.5 +
the seasonal bonus capped at 1.0 + 1.0 for preferred ids, where the seasonal
bonus accrues 0.3 per entry of the recipe's seasonal-ingredient list whose
lowercased name equals a lowercased current peak-produce name. -/
theorem rankRecipes_score_formula :
    ∀ (recipes : List Recipe) (scores : List (String × ℚ))
      (recentlyUsed : List String) (ctx : SeasonalContext) (prefs : Preferences)
      (r : Recipe), r ∈ recipes → r.id ∉ recentlyUsed →
      (r, recipeScoreSpec scores ctx prefs r)
        ∈ rankRecipes recipes scores recentlyUsed ctx prefs := by
  intro recipes scores recentlyUsed ctx prefs r hr hnot
  unfold rankRecipes
  rw [(stableSort_perm _ _).mem_iff]
  apply List.mem_filterMap.mpr
  refine ⟨r, hr, ?_⟩
  rw [if_neg hnot]
  simp only [Option.some.injEq, Prod.mk.injEq, true_and]
  unfold recipeTotalScore
  rw [foldl_seasonal]
  simp only [recipeScoreSpec, seasonalBonusSpec]
  ring_nf

/-- Witness for `rankRecipes_score_formula` at the concrete one-recipe
repository (its composite score evaluates to 3). -/
theorem rankRecipes_score_formula_witness :
    (seasonalCounterRecipe, (3 : ℚ))
      ∈ rankRecipes [seasonalCounterRecipe] [] [] ⟨["tomato"]⟩ {} := by
  have h := rankRecipes_score_formula [seasonalCounterRecipe] [] []
    ⟨["tomato"]⟩ {} seasonalCounterRecipe (by simp) (by simp)
  rw [show recipeScoreSpec [] ⟨["tomato"]⟩ {} seasonalCounterRecipe = 3 from by decide] at h
  exact h

/-- **C7 (counterexample).** The claim says a modifier word occurring in a
non-prefix position is left in place; on `"stone ground flour"` the code
nevertheless strips the non-prefix `"ground "`, producing `"stone flour"`. -/
theorem normalizeIngredientName_nonprefix_counterexample :
    normalizeIngredientName "stone ground flour" = "stone flour" ∧
    normalizeIngredientName "stone ground flour" ≠ "stone ground flour" := by
  decide

/-- **C7 (amended).** Normalization lowercases and trims, strips each listed
modifier (the fixed list also containing `"whole"`) wherever it occurs
followed by a space — prefix or not — and then applies the synonym/plural
substitution table as substring replacements.  Exercised across the
behaviors: prefix stripping, non-prefix stripping, `"whole"` stripping,
lowercasing/trimming before stripping, substitution after stripping,
substring substitution inside a longer name, and a bare modifier with no
trailing space left intact. -/
theorem normalizeIngredientName_strips_anywhere :
    normalizeIngredientName "Fresh Tomatoes" = "tomato" ∧
    normalizeIngredientName "stone ground flour" = "stone flour" ∧
    normalizeIngredientName "whole milk" = "milk" ∧
    normalizeIngredientName "  CHOPPED Onions  " = "onion" ∧
    normalizeIngredientName "garlic cloves" = "garlic" ∧
    normalizeIngredientName "green onions" = "green onion" ∧
    normalizeIngredientName "sun dried tomatoes" = "sun tomato" ∧
    normalizeIngredientName "ripe" = "ripe" := by
  decide

end MenuBot


